import Mathlib

/-!
Verification of the multi-column layout core (`ColumnsNode`, `ColbreakNode`)
and the `Type` ordering of the typst repository, via a shallow embedding.

Lengths (`Abs` in the source, an `f64` newtype) are embedded as exact
rationals extended with a single point at infinity; float rounding and NaN
behaviour are outside the model.
-/

namespace Typst

/-- Modelled from the spec: an absolute length (`Abs` in the source geometry
primitives, which are not part of the provided sources). The source stores an
`f64`; we embed it as an exact rational extended with a point at infinity, so
that `is_finite` is expressible. -/
inductive Len : Type where
  | fin (val : ℚ)
  | inf
  deriving DecidableEq, Repr

namespace Len

/-- Source `Abs::is_finite`. -/
def isFinite : Len → Bool
  | fin _ => true
  | inf => false

/-- Source `Abs::zero`. -/
def zero : Len := fin 0

/-- Addition of lengths; infinity absorbs (as for positive IEEE infinities). -/
def add : Len → Len → Len
  | fin a, fin b => fin (a + b)
  | _, _ => inf

/-- Subtraction of lengths; any infinite operand yields an infinite result
(the model does not track NaN or the sign of infinities). -/
def sub : Len → Len → Len
  | fin a, fin b => fin (a - b)
  | _, _ => inf

/-- A length multiplied by a natural number (`gutter * (columns - 1) as f64`),
by iterated addition, so that `x.mulNat 0 = zero`. -/
def mulNat : Len → ℕ → Len
  | _, 0 => zero
  | x, n + 1 => add x (mulNat x n)

/-- A length divided by a positive natural number (`/ columns as f64`). -/
def divNat : Len → ℕ → Len
  | fin a, n => fin (a / (n : ℚ))
  | inf, _ => inf

/-- Source `Abs::set_max` (keep the larger of the two lengths). -/
def max : Len → Len → Len
  | fin a, fin b => fin (Max.max a b)
  | _, _ => inf

end Len

/-- Modelled from the spec: a `(width, height)` scalar pair (`Size`). -/
structure Size where
  x : Len
  y : Len
  deriving DecidableEq, Repr

/-- Modelled from the spec: a generic per-axis pair (`Axes<T>`). -/
structure Axes (α : Type) where
  x : α
  y : α
  deriving DecidableEq, Repr

/-- Modelled from the spec: a point, as used for frame placement offsets. -/
structure Point where
  x : Len
  y : Len
  deriving DecidableEq, Repr

/-- Source `Point::with_x`: a point with the given x coordinate and zero y. -/
def Point.withX (x : Len) : Point := ⟨x, Len.zero⟩

/-- Modelled from the spec: a `Frame` owns a size and an ordered list of
(offset, child frame) placements. -/
inductive Frame : Type where
  | mk (size : Size) (items : List (Point × Frame))

/-- The size of a frame. -/
def Frame.size : Frame → Size
  | .mk s _ => s

/-- The placements of a frame. -/
def Frame.items : Frame → List (Point × Frame)
  | .mk _ is => is

/-- Source `Frame::width`. -/
def Frame.width (f : Frame) : Len := f.size.x

/-- Source `Frame::height`. -/
def Frame.height (f : Frame) : Len := f.size.y

/-- Source `Frame::new`: a fresh frame of the given size with no placements. -/
def Frame.new (s : Size) : Frame := .mk s []

/-- Source `Frame::push_frame`: append a placement at the given offset. -/
def Frame.pushFrame (f : Frame) (p : Point) (c : Frame) : Frame :=
  .mk f.size (f.items ++ [(p, c)])

/-- Source `output.size_mut().y.set_max(h)`: grow the frame height to at least `h`. -/
def Frame.setMaxHeight (f : Frame) (h : Len) : Frame :=
  .mk ⟨f.size.x, f.size.y.max h⟩ f.items

/-- Modelled from the spec: the region sequence offered to one layout call:
an immediate region, a reference size for resolving relative lengths, a
backlog of subsequent heights, an optional repeating trailing height, and
per-axis expand flags. -/
structure Regions where
  first : Size
  base : Size
  backlog : List Len
  last : Option Len
  expand : Axes Bool
  deriving DecidableEq, Repr

/-- The sizes of the first and following regions: the immediate region, then
one region of the same width per backlog height. -/
def Regions.heads (r : Regions) : List Size :=
  r.first :: r.backlog.map fun h => ⟨r.first.x, h⟩

/-- Modelled from the spec: the first `n` sizes of `Regions::iter`, which
yields the immediate region, then the backlog regions, then — only when a
`last` height is present — that height reused indefinitely. -/
def Regions.iterTake (r : Regions) (n : ℕ) : List Size :=
  match r.last with
  | some h => (r.heads ++ List.replicate n (⟨r.first.x, h⟩ : Size)).take n
  | none => r.heads.take n

/-- Modelled from the spec: a horizontal text direction, positive
(left-to-right) or negative (right-to-left). -/
inductive Dir : Type where
  | ltr
  | rtl
  deriving DecidableEq, Repr

/-- Source `Dir::is_positive`. -/
def Dir.isPositive : Dir → Bool
  | .ltr => true
  | .rtl => false

/-- Modelled from the spec: a resolved relative length (`Rel<Abs>`): a ratio
component plus an absolute component. `relative_to` evaluates it against a
whole; against an infinite whole the result is infinite (the f64 corner case
of a zero ratio times infinity is outside the model). -/
structure Rel where
  ratioPart : ℚ
  absPart : ℚ
  deriving DecidableEq, Repr

/-- Source `Rel::relative_to`. -/
def Rel.relativeTo (r : Rel) (whole : Len) : Len :=
  match whole with
  | .fin w => .fin (r.ratioPart * w + r.absPart)
  | .inf => .inf

/-- Modelled from the spec: the ambient style context, restricted to the two
properties this core reads: `ColumnsNode::GUTTER` (already resolved, so an
absolute-plus-ratio relative length) and `TextNode::DIR`. -/
structure Styles where
  gutter : Rel
  dir : Dir
  deriving DecidableEq, Repr

/-- Source `ColumnsNode`: a column count and a child. The child is embedded as its
layout function `styles → regions → Result<Fragment, ε>` (the opaque world
handle is threaded through unchanged in the source and is omitted); a
`Fragment` is the list of its frames. -/
structure ColumnsNode (ε : Type) where
  columns : ℕ+
  child : Styles → Regions → Except ε (List Frame)

/-- The gutter resolution `styles.get(Self::GUTTER).relative_to(regions.base.x)`. -/
def gutterOf (styles : Styles) (regions : Regions) : Len :=
  styles.gutter.relativeTo regions.base.x

/-- The column width `(regions.first.x - gutter * (columns - 1) as f64) / columns as f64`. -/
def colWidth (columns : ℕ) (gutter : Len) (regions : Regions) : Len :=
  (regions.first.x.sub (gutter.mulNat (columns - 1))).divNat columns

/-- The pod region sequence built by `ColumnsNode::layout`: widths replaced by
the column width, backlog from `once(&regions.first.y).chain(backlog)` with
each height repeated `columns` times and the first entry skipped, `last`
passed through, horizontal expansion forced. -/
def podOf (columns : ℕ) (gutter : Len) (regions : Regions) : Regions :=
  let width := colWidth columns gutter regions
  { first := ⟨width, regions.first.y⟩
    base := ⟨width, regions.base.y⟩
    backlog :=
      ((regions.first.y :: regions.backlog).flatMap fun h =>
        List.replicate columns h).drop 1
    last := regions.last
    expand := ⟨true, regions.expand.y⟩ }

/-- The inner `for _ in 0..columns` loop body of `ColumnsNode::layout`, run
over the chunk of child frames consumed into one output frame: grow the
output height when not vertically expanding, place the frame at the cursor
(mirrored for a negative direction), advance the cursor by the frame width
plus the gutter. -/
def placeChunk (expandY : Bool) (firstX gutter : Len) (dir : Dir) :
    Frame → Len → List Frame → Frame
  | output, _, [] => output
  | output, cursor, f :: fs =>
    let output' := if expandY then output else output.setMaxHeight f.height
    let w := f.width
    let x := if dir.isPositive then cursor else (firstX.sub cursor).sub w
    placeChunk expandY firstX gutter dir (output'.pushFrame (Point.withX x) f)
      (cursor.add (w.add gutter)) fs

/-- One iteration of the outer region loop of `ColumnsNode::layout`: start an
output frame of the original region width (and the offered height when
vertically expanding, zero otherwise) and stitch the chunk into it. -/
def stitchRegion (expandY : Bool) (firstX gutter : Len) (dir : Dir)
    (region : Size) (chunk : List Frame) : Frame :=
  let height := if expandY then region.y else Len.zero
  placeChunk expandY firstX gutter dir (Frame.new ⟨firstX, height⟩) Len.zero chunk

/-- The outer region loop of `ColumnsNode::layout`: one output frame per
offered region size, each consuming up to `columns` child frames. -/
def stitchRegions (expandY : Bool) (firstX gutter : Len) (dir : Dir)
    (columns : ℕ) : List Size → List Frame → List Frame
  | [], _ => []
  | r :: rs, frames =>
    stitchRegion expandY firstX gutter dir r (frames.take columns) ::
      stitchRegions expandY firstX gutter dir columns rs (frames.drop columns)

/-- Source `ColumnsNode::layout`. The source computes `total_regions` as
`(frames.len() as f32 / columns as f32).ceil() as usize`; it is embedded as
the exact ceiling division. -/
def ColumnsNode.layout (node : ColumnsNode ε) (styles : Styles)
    (regions : Regions) : Except ε (List Frame) :=
  if !regions.first.x.isFinite then node.child styles regions
  else
    let columns := (node.columns : ℕ)
    let gutter := gutterOf styles regions
    let pod := podOf columns gutter regions
    match node.child styles pod with
    | .error e => .error e
    | .ok frames =>
      let total := (frames.length + columns - 1) / columns
      .ok (stitchRegions regions.expand.y regions.first.x gutter styles.dir
        columns (regions.iterTake total) frames)

/-- Modelled from the spec: the `Behaviour` tag consumed by the external flow
sequencer; only the two variants this core produces are modelled. -/
inductive Behaviour : Type where
  | Weak (priority : ℕ)
  | Destructive
  deriving DecidableEq, Repr

/-- Source `ColbreakNode`: a break marker holding a single `weak` flag. -/
structure ColbreakNode where
  weak : Bool
  deriving DecidableEq, Repr

/-- Source `ColbreakNode::construct`: the named argument `weak` defaults to false
when omitted. -/
def ColbreakNode.construct (weak : Option Bool) : ColbreakNode :=
  ⟨weak.getD false⟩

/-- Source `ColbreakNode::behaviour`. -/
def ColbreakNode.behaviour (n : ColbreakNode) : Behaviour :=
  if n.weak then .Weak 1 else .Destructive

/-- Source `Type` from ty.rs: a handle to a static `NativeTypeData`; the fields
relevant to display and ordering are carried directly. Rust's `&str`
comparison is byte-lexicographic, which for UTF-8 coincides with
code-point-lexicographic order, embedded here over `List Char`. -/
structure Ty where
  name : String
  long_name : String
  title : String
  deriving DecidableEq, Repr

/-- Lexicographic comparison of character lists (Rust `str::cmp`). -/
def lexOrd : List Char → List Char → Ordering
  | [], [] => .eq
  | [], _ :: _ => .lt
  | _ :: _, [] => .gt
  | a :: as, b :: bs =>
    if a < b then .lt else if b < a then .gt else lexOrd as bs

/-- Source `<Type as Ord>::cmp`: compare by long name. -/
def Ty.cmp (a b : Ty) : Ordering :=
  lexOrd a.long_name.data b.long_name.data

/-- Source `<Type as PartialOrd>::partial_cmp`: always `Some(self.cmp(other))`. -/
def Ty.pcmp (a b : Ty) : Option Ordering :=
  some (Ty.cmp a b)

/-- The spec's description of the placements inside one output frame: the
cursor starts at zero and advances by the frame width plus the gutter after
each placement; a positive direction places at the cursor, a negative
direction places at `first.x - cursor - width`. -/
def cursorPlacements (firstX gutter : Len) (dir : Dir) (cursor : Len) :
    List Frame → List (Point × Frame)
  | [] => []
  | f :: fs =>
    (Point.withX
        (if dir.isPositive then cursor else (firstX.sub cursor).sub f.width), f) ::
      cursorPlacements firstX gutter dir (cursor.add (f.width.add gutter)) fs

/-- The size of the first frame of a layout result, when there is one. -/
def headSize (res : Except Unit (List Frame)) : Option Size :=
  match res with
  | .ok (f :: _) => some f.size
  | _ => none

/-- A childless frame of the given width and height. -/
def leaf (w h : ℚ) : Frame := Frame.mk ⟨.fin w, .fin h⟩ []

/-- Styles with zero gutter and a left-to-right direction. -/
def styles0 : Styles := { gutter := ⟨0, 0⟩, dir := .ltr }

/-- Styles with an absolute gutter of 10 and a left-to-right direction. -/
def stylesAbs10 : Styles := { gutter := ⟨0, 10⟩, dir := .ltr }

/-- Styles with an absolute gutter of 100 and a left-to-right direction. -/
def stylesAbs100 : Styles := { gutter := ⟨0, 100⟩, dir := .ltr }

/-- A region sequence of width 300 with a repeating last height. -/
def regions300 : Regions :=
  { first := ⟨.fin 300, .fin 400⟩
    base := ⟨.fin 300, .fin 400⟩
    backlog := []
    last := some (.fin 400)
    expand := ⟨true, false⟩ }

/-- The six equal child frames of the spec's 300-wide worked example. -/
def frames6 : List Frame := List.replicate 6 (leaf 100 50)

/-- A three-column node whose child always produces `frames6`. -/
def node3 : ColumnsNode Unit :=
  { columns := 3, child := fun _ _ => .ok frames6 }

/-- A region sequence with no last height and an empty backlog: only one
region is ever offered. -/
def regionsNoLast : Regions :=
  { first := ⟨.fin 100, .fin 100⟩
    base := ⟨.fin 100, .fin 100⟩
    backlog := []
    last := none
    expand := ⟨false, false⟩ }

/-- A single-column node whose child always produces two frames. -/
def nodeTwo : ColumnsNode Unit :=
  { columns := 1, child := fun _ _ => .ok [leaf 100 50, leaf 100 60] }

/-- A region sequence whose immediate width is infinite. -/
def regionsInf : Regions :=
  { first := ⟨.inf, .fin 100⟩
    base := ⟨.inf, .fin 100⟩
    backlog := []
    last := none
    expand := ⟨false, false⟩ }

/-- A single-column node whose child always produces one 100×50 frame. -/
def nodeOne : ColumnsNode Unit :=
  { columns := 1, child := fun _ _ => .ok [leaf 100 50] }

/-- A region sequence of width 200 with a repeating last height. -/
def regions200 : Regions :=
  { first := ⟨.fin 200, .fin 300⟩
    base := ⟨.fin 200, .fin 300⟩
    backlog := []
    last := some (.fin 300)
    expand := ⟨false, false⟩ }

/-- The region sequence of the spec's concrete gutter example: width 310. -/
def regions310 : Regions :=
  { first := ⟨.fin 310, .fin 400⟩
    base := ⟨.fin 310, .fin 400⟩
    backlog := []
    last := some (.fin 400)
    expand := ⟨false, false⟩ }

/-- A narrow region sequence: width 10, so that a gutter of 100 makes the
column width negative. -/
def regionsNarrow : Regions :=
  { first := ⟨.fin 10, .fin 100⟩
    base := ⟨.fin 10, .fin 100⟩
    backlog := []
    last := some (.fin 100)
    expand := ⟨false, false⟩ }

/-- A two-column node whose child reports the immediate region it was
offered, as a childless frame of that size. -/
def nodeEcho : ColumnsNode Unit :=
  { columns := 2, child := fun _ r => .ok [Frame.new r.first] }

/-- The output of the worked three-column example, as produced by the
stitching loop. -/
def out300 : List Frame :=
  stitchRegions regions300.expand.y regions300.first.x
    (gutterOf styles0 regions300) styles0.dir (node3.columns : ℕ)
    (regions300.iterTake
      ((frames6.length + (node3.columns : ℕ) - 1) / (node3.columns : ℕ)))
    frames6

/-- The output of the single-column example on `regions200`, as produced by
the stitching loop. -/
def out200 : List Frame :=
  stitchRegions regions200.expand.y regions200.first.x
    (gutterOf styles0 regions200) styles0.dir (nodeOne.columns : ℕ)
    (regions200.iterTake
      ((([leaf 100 50] : List Frame).length + (nodeOne.columns : ℕ) - 1) /
        (nodeOne.columns : ℕ)))
    [leaf 100 50]

/-- Example types for the `Type` ordering: `int`. -/
def tyInt : Ty := ⟨"int", "integer", "Int"⟩

/-- Example types for the `Type` ordering: `str`. -/
def tyStr : Ty := ⟨"str", "string", "Str"⟩

/-- Example types for the `Type` ordering: `type`. -/
def tyType : Ty := ⟨"type", "type", "Type"⟩

theorem Frame.items_pushFrame (f : Frame) (p : Point) (c : Frame) :
    (f.pushFrame p c).items = f.items ++ [(p, c)] := rfl

theorem Frame.size_pushFrame (f : Frame) (p : Point) (c : Frame) :
    (f.pushFrame p c).size = f.size := rfl

theorem Frame.items_setMaxHeight (f : Frame) (h : Len) :
    (f.setMaxHeight h).items = f.items := rfl

theorem Frame.size_setMaxHeight (f : Frame) (h : Len) :
    (f.setMaxHeight h).size = ⟨f.size.x, f.size.y.max h⟩ := rfl

theorem placeChunk_items (e : Bool) (fx g : Len) (d : Dir) :
    ∀ (fs : List Frame) (out : Frame) (cur : Len),
      (placeChunk e fx g d out cur fs).items =
        out.items ++ cursorPlacements fx g d cur fs
  | [], out, cur => by simp [placeChunk, cursorPlacements]
  | f :: fs, out, cur => by
    rw [placeChunk, cursorPlacements, placeChunk_items e fx g d fs]
    cases e <;>
      simp [Frame.items_pushFrame, Frame.items_setMaxHeight, List.append_assoc]

theorem placeChunk_size_expand (fx g : Len) (d : Dir) :
    ∀ (fs : List Frame) (out : Frame) (cur : Len),
      (placeChunk true fx g d out cur fs).size = out.size
  | [], out, cur => rfl
  | f :: fs, out, cur => by
    rw [placeChunk, placeChunk_size_expand fx g d fs]
    simp [Frame.size_pushFrame]

theorem placeChunk_size_grow (fx g : Len) (d : Dir) :
    ∀ (fs : List Frame) (out : Frame) (cur : Len),
      (placeChunk false fx g d out cur fs).size =
        ⟨out.size.x, (fs.map Frame.height).foldl Len.max out.size.y⟩
  | [], out, cur => rfl
  | f :: fs, out, cur => by
    rw [placeChunk, placeChunk_size_grow fx g d fs]
    simp [Frame.size_pushFrame, Frame.size_setMaxHeight]

theorem stitchRegion_items (e : Bool) (fx g : Len) (d : Dir) (r : Size)
    (chunk : List Frame) :
    (stitchRegion e fx g d r chunk).items =
      cursorPlacements fx g d Len.zero chunk := by
  rw [stitchRegion, placeChunk_items]
  simp [Frame.new, Frame.items]

theorem stitchRegion_size (e : Bool) (fx g : Len) (d : Dir) (r : Size)
    (chunk : List Frame) :
    (stitchRegion e fx g d r chunk).size =
      ⟨fx, if e then r.y else (chunk.map Frame.height).foldl Len.max Len.zero⟩ := by
  cases e
  · rw [stitchRegion, placeChunk_size_grow]
    simp [Frame.new, Frame.size]
  · rw [stitchRegion, placeChunk_size_expand]
    simp [Frame.new, Frame.size]

theorem stitchRegions_length (e : Bool) (fx g : Len) (d : Dir) (c : ℕ) :
    ∀ (rs : List Size) (frames : List Frame),
      (stitchRegions e fx g d c rs frames).length = rs.length
  | [], _ => rfl
  | r :: rs, frames => by
    rw [stitchRegions]
    simp [stitchRegions_length e fx g d c rs]

theorem stitchRegions_get (e : Bool) (fx g : Len) (d : Dir) (c : ℕ) :
    ∀ (rs : List Size) (i : ℕ) (frames : List Frame) (hi : i < rs.length),
      (stitchRegions e fx g d c rs frames).get
          ⟨i, by rw [stitchRegions_length]; exact hi⟩ =
        stitchRegion e fx g d (rs.get ⟨i, hi⟩) ((frames.drop (c * i)).take c)
  | r :: rs, 0, frames, _ => by simp [stitchRegions]
  | r :: rs, i + 1, frames, hi => by
    have ih := stitchRegions_get e fx g d c rs i (frames.drop c)
      (by simpa using Nat.lt_of_succ_lt_succ hi)
    simp only [stitchRegions, List.get_cons_succ]
    rw [ih]
    congr 1
    rw [List.drop_drop]
    congr 1
    ring_nf

theorem stitchRegions_getElem (e : Bool) (fx g : Len) (d : Dir) (c : ℕ) :
    ∀ (rs : List Size) (i : ℕ) (frames : List Frame),
      (stitchRegions e fx g d c rs frames)[i]? =
        rs[i]?.map fun r =>
          stitchRegion e fx g d r ((frames.drop (c * i)).take c)
  | [], i, frames => by simp [stitchRegions]
  | r :: rs, 0, frames => by simp [stitchRegions]
  | r :: rs, i + 1, frames => by
    rw [stitchRegions]
    simp only [List.getElem?_cons_succ]
    rw [stitchRegions_getElem e fx g d c rs i (frames.drop c)]
    simp only [List.drop_drop, Nat.mul_succ, Nat.add_comm c (c * i)]

theorem cursorPlacements_snd (fx g : Len) (d : Dir) :
    ∀ (cur : Len) (fs : List Frame),
      (cursorPlacements fx g d cur fs).map Prod.snd = fs
  | _, [] => rfl
  | cur, f :: fs => by
    rw [cursorPlacements]
    simp [cursorPlacements_snd fx g d]

theorem stitchRegions_flat (e : Bool) (fx g : Len) (d : Dir) (c : ℕ) :
    ∀ (rs : List Size) (frames : List Frame),
      ((stitchRegions e fx g d c rs frames).map Frame.items).flatten.map Prod.snd
        = frames.take (c * rs.length)
  | [], frames => by simp [stitchRegions]
  | r :: rs, frames => by
    rw [stitchRegions]
    simp only [List.map_cons, List.flatten_cons, List.map_append]
    rw [stitchRegion_items, cursorPlacements_snd, stitchRegions_flat e fx g d c rs]
    rw [show c * (r :: rs).length = c + c * rs.length by simp [List.length_cons]; ring_nf]
    rw [List.take_add]

theorem Len.mulNat_fin (a : ℚ) : ∀ n : ℕ, Len.mulNat (.fin a) n = .fin (a * n)
  | 0 => by simp [Len.mulNat, Len.zero]
  | n + 1 => by
    rw [Len.mulNat, Len.mulNat_fin a n]
    simp only [Len.add, Nat.cast_succ]
    ring_nf

theorem le_mul_ceilDivNat (k c : ℕ) (hc : 0 < c) : k ≤ c * ((k + c - 1) / c) := by
  have h1 := Nat.div_add_mod (k + c - 1) c
  have h2 := Nat.mod_lt (k + c - 1) hc
  omega

theorem layout_finite_ok {ε : Type} (node : ColumnsNode ε) (styles : Styles)
    (regions : Regions) (frames : List Frame)
    (hfin : regions.first.x.isFinite = true)
    (hchild : node.child styles
        (podOf node.columns (gutterOf styles regions) regions) = .ok frames) :
    node.layout styles regions =
      .ok (stitchRegions regions.expand.y regions.first.x
        (gutterOf styles regions) styles.dir (node.columns : ℕ)
        (regions.iterTake
          ((frames.length + (node.columns : ℕ) - 1) / (node.columns : ℕ)))
        frames) := by
  unfold ColumnsNode.layout
  rw [hfin]
  simp only [Bool.not_true, Bool.false_eq_true, if_false, hchild]

/-- C5: if `regions.first.x` is not finite, the multi-column layout delegates
directly to the child's layout with the unmodified regions — no gutter
resolution, no pod construction, no regrouping — and returns the child's
Fragment unchanged. -/
theorem columns_infinite_delegates {ε : Type} (node : ColumnsNode ε)
    (styles : Styles) (regions : Regions)
    (h : regions.first.x.isFinite = false) :
    node.layout styles regions = node.child styles regions := by
  unfold ColumnsNode.layout
  rw [h]
  rfl

/-- Witness for C5: a concrete infinite-width region sequence. -/
theorem columns_infinite_delegates_witness :
    ColumnsNode.layout nodeOne styles0 regionsInf =
      nodeOne.child styles0 regionsInf :=
  columns_infinite_delegates nodeOne styles0 regionsInf rfl

/-- C8: the break-behaviour classifier is a pure function of the `weak`
flag: `Weak 1` (priority exactly 1) iff `weak` is true, `Destructive` iff
`weak` is false, and construction with the named `weak` argument omitted
defaults it to false. -/
theorem colbreak_behaviour_spec :
    (∀ n : ColbreakNode, n.behaviour = .Weak 1 ↔ n.weak = true) ∧
    (∀ n : ColbreakNode, n.behaviour = .Destructive ↔ n.weak = false) ∧
    (∀ (n : ColbreakNode) (p : ℕ),
      n.behaviour = .Weak p ↔ (n.weak = true ∧ p = 1)) ∧
    ColbreakNode.construct none = ⟨false⟩ ∧
    (∀ b : Bool, ColbreakNode.construct (some b) = ⟨b⟩) := by
  refine ⟨fun n => ?_, fun n => ?_, fun n p => ?_, rfl, fun b => rfl⟩
  all_goals obtain ⟨w⟩ := n; cases w <;>
    simp [ColbreakNode.behaviour, eq_comm]

/-- C9: a layout error from the child's layout call is returned unchanged —
the call on the pod when the immediate width is finite, on the unmodified
regions otherwise; no error originates in this component and no partial
Fragment is returned alongside an error. -/
theorem columns_error_propagation {ε : Type} (node : ColumnsNode ε)
    (styles : Styles) (regions : Regions) (e : ε) :
    node.layout styles regions = .error e ↔
      node.child styles
        (if regions.first.x.isFinite then
          podOf node.columns (gutterOf styles regions) regions
        else regions) = .error e := by
  unfold ColumnsNode.layout
  cases hf : regions.first.x.isFinite
  · simp [hf]
  · simp only [hf, Bool.not_true, Bool.false_eq_true, if_false, if_true]
    cases hc : node.child styles
        (podOf (node.columns : ℕ) (gutterOf styles regions) regions) <;>
      simp [hc]

/-- C2: the pod handed to the child replaces the first and base widths by the
column width with heights unchanged; its backlog is `[first.y] ++ backlog`
with each entry repeated `columns` times consecutively and the first entry
dropped (equivalently, `columns − 1` copies of `first.y` followed by
`columns` copies of each backlog entry); `last` passes through; horizontal
expansion is forced and vertical expansion preserved. -/
theorem columns_pod_construction (c : ℕ+) (g : Len) (r : Regions) :
    (podOf c g r).first = ⟨colWidth c g r, r.first.y⟩ ∧
    (podOf c g r).base = ⟨colWidth c g r, r.base.y⟩ ∧
    (podOf c g r).backlog =
      ((r.first.y :: r.backlog).flatMap
        (fun h => List.replicate (c : ℕ) h)).drop 1 ∧
    (podOf c g r).backlog =
      List.replicate ((c : ℕ) - 1) r.first.y ++
        r.backlog.flatMap (fun h => List.replicate (c : ℕ) h) ∧
    (podOf c g r).last = r.last ∧
    (podOf c g r).expand = ⟨true, r.expand.y⟩ := by
  refine ⟨rfl, rfl, rfl, ?_, rfl, rfl⟩
  obtain ⟨c, hc⟩ := c
  obtain ⟨c', rfl⟩ := Nat.exists_eq_succ_of_ne_zero (Nat.pos_iff_ne_zero.mp hc)
  simp [podOf, List.replicate_succ]

/-- C3: the gutter is resolved relative to `regions.base.x`; the column width
is `(first.x − gutter·(columns−1)) / columns`; the spec's concrete instance
(width 310, absolute gutter 10, two columns) yields 150; and a negative
column width (width 10, absolute gutter 100, two columns ⇒ −45) is not
rejected — layout still succeeds, handing the negative width to the child. -/
theorem columns_gutter_width :
    (∀ (styles : Styles) (regions : Regions),
      gutterOf styles regions = styles.gutter.relativeTo regions.base.x) ∧
    (∀ (c : ℕ) (g : Len) (regions : Regions),
      colWidth c g regions =
        (regions.first.x.sub (g.mulNat (c - 1))).divNat c) ∧
    gutterOf stylesAbs10 regions310 = .fin 10 ∧
    colWidth 2 (gutterOf stylesAbs10 regions310) regions310 = .fin 150 ∧
    colWidth 2 (gutterOf stylesAbs100 regionsNarrow) regionsNarrow =
      .fin (-45) ∧
    ColumnsNode.layout nodeEcho stylesAbs100 regionsNarrow =
      .ok [Frame.mk ⟨.fin 10, .fin 100⟩
        [(⟨.fin 0, .fin 0⟩, Frame.mk ⟨.fin (-45), .fin 100⟩ [])]] := by
  refine ⟨fun _ _ => rfl, fun _ _ _ => rfl, ?_, ?_, ?_, ?_⟩
  · norm_num [gutterOf, Rel.relativeTo, stylesAbs10, regions310]
  · norm_num [colWidth, gutterOf, Rel.relativeTo, stylesAbs10, regions310,
      Len.sub, Len.divNat, Len.mulNat_fin]
  · norm_num [colWidth, gutterOf, Rel.relativeTo, stylesAbs100, regionsNarrow,
      Len.sub, Len.divNat, Len.mulNat_fin]
  · norm_num [ColumnsNode.layout, nodeEcho, stylesAbs100, regionsNarrow,
      podOf, colWidth, gutterOf, Rel.relativeTo, Len.sub, Len.divNat,
      Len.mulNat_fin, Len.isFinite, Regions.iterTake, Regions.heads,
      stitchRegions, stitchRegion, placeChunk, Frame.new, Frame.pushFrame,
      Frame.setMaxHeight, Frame.items, Frame.size, Frame.width, Frame.height,
      Len.max, Len.add, Len.zero, Point.withX, Dir.isPositive, max_def]

/-- C1 fails as stated: with one column, a child Fragment of two frames, and
a region sequence offering only one region (`last` absent, empty backlog),
the output Fragment has one frame, not `ceil(2 / 1) = 2`; the second child
frame is dropped rather than placed. -/
theorem columns_output_count_cex :
    nodeTwo.child styles0
        (podOf nodeTwo.columns (gutterOf styles0 regionsNoLast) regionsNoLast) =
      .ok [leaf 100 50, leaf 100 60] ∧
    (ColumnsNode.layout nodeTwo styles0 regionsNoLast).map List.length =
      .ok 1 ∧
    ((2 : ℕ) + 1 - 1) / 1 = 2 := by
  refine ⟨rfl, ?_, rfl⟩
  norm_num [ColumnsNode.layout, nodeTwo, styles0, regionsNoLast, podOf,
    colWidth, gutterOf, Rel.relativeTo, Len.sub, Len.divNat, Len.mulNat_fin,
    Len.isFinite, Regions.iterTake, Regions.heads, stitchRegions, leaf,
    stitchRegion, placeChunk, Frame.new, Frame.pushFrame, Frame.setMaxHeight,
    Frame.items, Frame.size, Frame.width, Frame.height, Len.max, Len.add,
    Len.zero, Point.withX, Dir.isPositive, max_def, Except.map]

/-- C1 (amended): for every `columns ≥ 1` and a child Fragment of `k` frames,
provided the immediate width is finite and the original region sequence
offers at least `ceil(k / columns)` regions (always the case when `last` is
present), the output has exactly `ceil(k / columns)` frames, the child
frames placed across all output frames are exactly the `k` child frames in
order (each placed once, in one output frame), and zero child frames yield
an empty output Fragment rather than an error. -/
theorem columns_output_count {ε : Type} (node : ColumnsNode ε)
    (styles : Styles) (regions : Regions) (frames : List Frame)
    (hfin : regions.first.x.isFinite = true)
    (hchild : node.child styles
        (podOf node.columns (gutterOf styles regions) regions) = .ok frames)
    (hreg : (regions.iterTake
          ((frames.length + (node.columns : ℕ) - 1) /
            (node.columns : ℕ))).length =
        (frames.length + (node.columns : ℕ) - 1) / (node.columns : ℕ)) :
    ∃ out, node.layout styles regions = .ok out ∧
      out.length =
        (frames.length + (node.columns : ℕ) - 1) / (node.columns : ℕ) ∧
      (out.map Frame.items).flatten.map Prod.snd = frames ∧
      (frames = [] → out = []) := by
  have hc : 0 < (node.columns : ℕ) := node.columns.pos
  refine ⟨_, layout_finite_ok node styles regions frames hfin hchild, ?_, ?_, ?_⟩
  · rw [stitchRegions_length]
    exact hreg
  · rw [stitchRegions_flat, hreg]
    exact List.take_of_length_le
      (le_trans (le_mul_ceilDivNat frames.length _ hc) (le_refl _))
  · intro hnil
    subst hnil
    have htot : ((0 : ℕ) + (node.columns : ℕ) - 1) / (node.columns : ℕ) = 0 :=
      Nat.div_eq_of_lt (by omega)
    simp only [List.length_nil, htot]
    have : regions.iterTake 0 = [] := by
      unfold Regions.iterTake
      cases regions.last <;> simp
    rw [this]
    rfl

/-- Witness for the amended C1: three columns, six child frames, a region
sequence with a repeating last height. -/
theorem columns_output_count_witness :
    ∃ out, ColumnsNode.layout node3 styles0 regions300 = .ok out ∧
      out.length =
        (frames6.length + (node3.columns : ℕ) - 1) / (node3.columns : ℕ) ∧
      (out.map Frame.items).flatten.map Prod.snd = frames6 ∧
      (frames6 = [] → out = []) :=
  columns_output_count node3 styles0 regions300 frames6 rfl rfl rfl

/-- C4: within each output frame, the placements follow the cursor
discipline: the cursor starts at zero and advances by the consumed frame's
width plus the gutter after each placement regardless of direction; a
positive direction places each consumed frame at the cursor (the first at
x = 0), a negative one at `first.x − cursor − width`. -/
theorem columns_placement_offsets {ε : Type} (node : ColumnsNode ε)
    (styles : Styles) (regions : Regions) (frames out : List Frame)
    (hfin : regions.first.x.isFinite = true)
    (hchild : node.child styles
        (podOf node.columns (gutterOf styles regions) regions) = .ok frames)
    (hlay : node.layout styles regions = .ok out)
    (i : ℕ) (f : Frame) (hf : out[i]? = some f) :
    f.items =
      cursorPlacements regions.first.x (gutterOf styles regions) styles.dir
        Len.zero
        ((frames.drop ((node.columns : ℕ) * i)).take (node.columns : ℕ)) := by
  have h := layout_finite_ok node styles regions frames hfin hchild
  rw [hlay, Except.ok.injEq] at h
  subst h
  rw [stitchRegions_getElem] at hf
  cases hr : (regions.iterTake
      ((frames.length + (node.columns : ℕ) - 1) / (node.columns : ℕ)))[i]? with
  | none => rw [hr] at hf; simp at hf
  | some r =>
    rw [hr] at hf
    simp only [Option.map_some', Option.some.injEq] at hf
    rw [← hf, stitchRegion_items]

/-- Witness for C4: the first output frame of the worked three-column
example. -/
theorem columns_placement_offsets_witness :
    (stitchRegion false (.fin 300) (gutterOf styles0 regions300) .ltr
        (⟨.fin 300, .fin 400⟩ : Size) (frames6.take 3)).items =
      cursorPlacements regions300.first.x (gutterOf styles0 regions300)
        styles0.dir Len.zero
        ((frames6.drop ((node3.columns : ℕ) * 0)).take (node3.columns : ℕ)) :=
  columns_placement_offsets node3 styles0 regions300 frames6 out300 rfl rfl
    (layout_finite_ok node3 styles0 regions300 frames6 rfl rfl) 0 _ rfl

/-- C6: every output frame has width `regions.first.x`; when vertically
expanding its height is the corresponding offered region height, otherwise
it starts at zero and is grown to the maximum height among the child frames
consumed into it. -/
theorem columns_frame_sizes {ε : Type} (node : ColumnsNode ε)
    (styles : Styles) (regions : Regions) (frames out : List Frame)
    (hfin : regions.first.x.isFinite = true)
    (hchild : node.child styles
        (podOf node.columns (gutterOf styles regions) regions) = .ok frames)
    (hlay : node.layout styles regions = .ok out)
    (i : ℕ) (f : Frame) (hf : out[i]? = some f) :
    ∃ r, (regions.iterTake
        ((frames.length + (node.columns : ℕ) - 1) /
          (node.columns : ℕ)))[i]? = some r ∧
      f.size = ⟨regions.first.x,
        if regions.expand.y then r.y
        else (((frames.drop ((node.columns : ℕ) * i)).take
            (node.columns : ℕ)).map Frame.height).foldl Len.max Len.zero⟩ := by
  have h := layout_finite_ok node styles regions frames hfin hchild
  rw [hlay, Except.ok.injEq] at h
  subst h
  rw [stitchRegions_getElem] at hf
  cases hr : (regions.iterTake
      ((frames.length + (node.columns : ℕ) - 1) / (node.columns : ℕ)))[i]? with
  | none => rw [hr] at hf; simp at hf
  | some r =>
    rw [hr] at hf
    simp only [Option.map_some', Option.some.injEq] at hf
    exact ⟨r, rfl, by rw [← hf, stitchRegion_size]⟩

/-- Witness for C6: the first output frame of the worked three-column
example. -/
theorem columns_frame_sizes_witness :
    ∃ r, (regions300.iterTake
        ((frames6.length + (node3.columns : ℕ) - 1) /
          (node3.columns : ℕ)))[0]? = some r ∧
      (stitchRegion false (.fin 300) (gutterOf styles0 regions300) .ltr
          (⟨.fin 300, .fin 400⟩ : Size) (frames6.take 3)).size =
        ⟨regions300.first.x,
          if regions300.expand.y then r.y
          else (((frames6.drop ((node3.columns : ℕ) * 0)).take
              (node3.columns : ℕ)).map Frame.height).foldl Len.max Len.zero⟩ :=
  columns_frame_sizes node3 styles0 regions300 frames6 out300 rfl rfl
    (layout_finite_ok node3 styles0 regions300 frames6 rfl rfl) 0 _ rfl

theorem colWidth_one (g : Len) (r : Regions) : colWidth 1 g r = r.first.x := by
  unfold colWidth
  simp only [Nat.sub_self, Len.mulNat]
  cases hx : r.first.x with
  | fin a => simp [Len.sub, Len.zero, Len.divNat]
  | inf => simp [Len.sub, Len.divNat]

theorem podOf_one (g : Len) (r : Regions) :
    podOf 1 g r =
      { first := ⟨r.first.x, r.first.y⟩
        base := ⟨r.first.x, r.base.y⟩
        backlog := r.backlog
        last := r.last
        expand := ⟨true, r.expand.y⟩ } := by
  unfold podOf
  rw [colWidth_one]
  simp

theorem iterTake_length_le (r : Regions) (n : ℕ) :
    (r.iterTake n).length ≤ n := by
  unfold Regions.iterTake
  cases r.last <;> simp [List.length_take_le]

/-- C7 fails as stated: with a single column the output is not the child's
direct Fragment. Concretely, the child always produces one bare 100×50
frame; laying it out directly returns that frame, while the column layout
returns a fresh 200-wide output frame that merely contains it. -/
theorem columns_single_column_cex :
    ColumnsNode.layout nodeOne styles0 regions200 ≠
      nodeOne.child styles0 regions200 := by
  have h1 : headSize (ColumnsNode.layout nodeOne styles0 regions200) =
      some ⟨.fin 200, .fin 50⟩ := by
    norm_num [headSize, ColumnsNode.layout, nodeOne, styles0, regions200,
      podOf, colWidth, gutterOf, Rel.relativeTo, Len.sub, Len.divNat,
      Len.mulNat_fin, Len.isFinite, Regions.iterTake, Regions.heads,
      stitchRegions, leaf, stitchRegion, placeChunk, Frame.new,
      Frame.pushFrame, Frame.setMaxHeight, Frame.items, Frame.size,
      Frame.width, Frame.height, Len.max, Len.add, Len.zero, Point.withX,
      Dir.isPositive, max_def]
  intro h
  rw [h] at h1
  norm_num [headSize, nodeOne, leaf, Frame.size] at h1

/-- C7 (amended): for `columns == 1` the layout is a pass-through only up to
repackaging — the pod coincides with the original regions except that the
base width is set to `first.x` and horizontal expansion is forced true
(heights, backlog and `last` unchanged), and each output frame is a fresh
frame that wraps exactly the corresponding child frame as its single
placement, at the cursor origin (x = 0 for a positive direction,
right-aligned at `first.x` for a negative one); the child's frames are not
returned unmodified. -/
theorem columns_single_column_amended {ε : Type} (node : ColumnsNode ε)
    (styles : Styles) (regions : Regions) (frames out : List Frame)
    (hcol : node.columns = 1)
    (hfin : regions.first.x.isFinite = true)
    (hchild : node.child styles
        (podOf node.columns (gutterOf styles regions) regions) = .ok frames)
    (hlay : node.layout styles regions = .ok out) :
    (∀ (g : Len) (r : Regions),
      podOf 1 g r =
        { first := ⟨r.first.x, r.first.y⟩
          base := ⟨r.first.x, r.base.y⟩
          backlog := r.backlog
          last := r.last
          expand := ⟨true, r.expand.y⟩ }) ∧
    ∀ (i : ℕ) (f : Frame), out[i]? = some f →
      ∃ (hi : i < frames.length),
        f.items =
          [(Point.withX
              (if styles.dir.isPositive then Len.zero
               else (regions.first.x.sub Len.zero).sub
                 (frames.get ⟨i, hi⟩).width),
            frames.get ⟨i, hi⟩)] := by
  refine ⟨fun g r => podOf_one g r, ?_⟩
  intro i f hf
  have h := layout_finite_ok node styles regions frames hfin hchild
  rw [hlay, Except.ok.injEq] at h
  subst h
  have hcol' : (node.columns : ℕ) = 1 := by rw [hcol]; rfl
  rw [stitchRegions_getElem, hcol'] at hf
  simp only [Nat.add_sub_cancel, Nat.div_one, one_mul] at hf
  cases hr : (regions.iterTake frames.length)[i]? with
  | none => rw [hr] at hf; simp at hf
  | some r =>
    rw [hr] at hf
    simp only [Option.map_some', Option.some.injEq] at hf
    have hirs : i < (regions.iterTake frames.length).length :=
      (List.getElem?_eq_some.mp hr).1
    have hi : i < frames.length :=
      lt_of_lt_of_le hirs (iterTake_length_le regions frames.length)
    refine ⟨hi, ?_⟩
    rw [← hf, stitchRegion_items]
    rw [List.drop_eq_getElem_cons hi]
    simp [cursorPlacements]

/-- Witness for the amended C7: the single-column layout of one 100×50 child
frame into a 200-wide region wraps it at x = 0. -/
theorem columns_single_column_amended_witness :
    ∃ (hi : 0 < ([leaf 100 50] : List Frame).length),
      (stitchRegion false (.fin 200) (gutterOf styles0 regions200) .ltr
          (⟨.fin 200, .fin 300⟩ : Size)
          (([leaf 100 50] : List Frame).take 1)).items =
        [(Point.withX
            (if styles0.dir.isPositive then Len.zero
             else (regions200.first.x.sub Len.zero).sub
               (([leaf 100 50] : List Frame).get ⟨0, hi⟩).width),
          ([leaf 100 50] : List Frame).get ⟨0, hi⟩)] :=
  (columns_single_column_amended nodeOne styles0 regions200 [leaf 100 50]
    out200 rfl rfl rfl
    (layout_finite_ok nodeOne styles0 regions200 [leaf 100 50] rfl rfl)).2
    0 _ rfl

theorem lexOrd_eq_iff : ∀ xs ys : List Char, lexOrd xs ys = .eq ↔ xs = ys
  | [], [] => by simp [lexOrd]
  | [], _ :: _ => by simp [lexOrd]
  | _ :: _, [] => by simp [lexOrd]
  | x :: xs, y :: ys => by
    rw [lexOrd]
    rcases lt_trichotomy x y with h | rfl | h
    · rw [if_pos h]
      simp [ne_of_lt h]
    · rw [if_neg (lt_irrefl x), if_neg (lt_irrefl x)]
      simp [lexOrd_eq_iff xs ys]
    · rw [if_neg (asymm h), if_pos h]
      simp [ne_of_gt h]

theorem lexOrd_swap : ∀ xs ys : List Char, lexOrd ys xs = (lexOrd xs ys).swap
  | [], [] => rfl
  | [], _ :: _ => rfl
  | _ :: _, [] => rfl
  | x :: xs, y :: ys => by
    rw [lexOrd, lexOrd]
    rcases lt_trichotomy x y with h | rfl | h
    · rw [if_neg (asymm h), if_pos h, if_pos h]
      rfl
    · rw [if_neg (lt_irrefl x), if_neg (lt_irrefl x), if_neg (lt_irrefl x),
        if_neg (lt_irrefl x), lexOrd_swap xs ys]
    · rw [if_pos h, if_neg (asymm h), if_pos h]
      rfl

theorem lexOrd_trans : ∀ xs ys zs : List Char,
    lexOrd xs ys = .lt → lexOrd ys zs = .lt → lexOrd xs zs = .lt
  | [], [], _ => by intro h _; simp [lexOrd] at h
  | [], _ :: _, [] => by intro _ h; simp [lexOrd] at h
  | [], _ :: _, _ :: _ => fun _ _ => rfl
  | _ :: _, [], _ => by intro h _; simp [lexOrd] at h
  | _ :: _, _ :: _, [] => by intro _ h; simp [lexOrd] at h
  | x :: xs, y :: ys, z :: zs => by
    intro h1 h2
    rw [lexOrd] at h1 h2 ⊢
    rcases lt_trichotomy x y with hxy | rfl | hxy
    · rcases lt_trichotomy y z with hyz | rfl | hyz
      · rw [if_pos (lt_trans hxy hyz)]
      · rw [if_pos hxy]
      · rw [if_neg (asymm hyz), if_pos hyz] at h2
        simp at h2
    · rw [if_neg (lt_irrefl x), if_neg (lt_irrefl x)] at h1
      rcases lt_trichotomy x z with hxz | rfl | hxz
      · rw [if_pos hxz]
      · rw [if_neg (lt_irrefl x), if_neg (lt_irrefl x)] at h2 ⊢
        exact lexOrd_trans xs ys zs h1 h2
      · rw [if_neg (asymm hxz), if_pos hxz] at h2
        simp at h2
    · rw [if_neg (asymm hxy), if_pos hxy] at h1
      simp at h1

/-- C10: `partial_cmp` always returns `Some(self.cmp(other))` — never
`None` — and `cmp` is the lexicographic comparison of the long names, so
`Type` comparison is a total order determined solely by the long name:
comparing types with equal long names yields `eq` regardless of their other
fields, the comparison swaps under argument exchange, and it is
transitive. -/
theorem ty_order_spec :
    (∀ a b : Ty, a.pcmp b = some (a.cmp b)) ∧
    (∀ a b : Ty, a.cmp b = lexOrd a.long_name.data b.long_name.data) ∧
    (∀ a b : Ty, a.cmp b = .eq ↔ a.long_name = b.long_name) ∧
    (∀ a b : Ty, b.cmp a = (a.cmp b).swap) ∧
    (∀ a b c : Ty, a.cmp b = .lt → b.cmp c = .lt → a.cmp c = .lt) := by
  refine ⟨fun a b => rfl, fun a b => rfl, fun a b => ?_,
    fun a b => lexOrd_swap _ _, fun a b c => lexOrd_trans _ _ _⟩
  rw [Ty.cmp, lexOrd_eq_iff]
  exact ⟨fun h => String.ext h, fun h => by rw [h]⟩

/-- Witness for C10: transitivity at `integer < string < type`. -/
theorem ty_order_spec_witness :
    tyInt.cmp tyStr = .lt ∧ tyStr.cmp tyType = .lt ∧
      tyInt.cmp tyType = .lt :=
  ⟨by decide, by decide,
    ty_order_spec.2.2.2.2 tyInt tyStr tyType (by decide) (by decide)⟩

end Typst
